import Mathlib

/-!
Shallow embedding of the color-rule engine of tasknc (src/color.c) and proofs
about it.  C linked lists become Lean `List`s, the curses pair tables become
lists indexed by pair number, and C strings become `List Char` (`Option` for
possibly-NULL pointers).  The helpers `str_starts_with`, `match_string` and
`str_eq` live in common.c, which is not part of the sources here; they are
modelled from the specification (see their doc comments).
-/

set_option maxHeartbeats 1000000

namespace Tasknc

/-- The `color_object` enum of color.h, as used throughout color.c. -/
inductive ColorObject where
  | OBJECT_HEADER
  | OBJECT_TASK
  | OBJECT_ERROR
  | OBJECT_NONE
deriving DecidableEq, Repr

export ColorObject (OBJECT_HEADER OBJECT_TASK OBJECT_ERROR OBJECT_NONE)

/-- The task fields consulted by eval_rules (struct task, src/src/task.c):
description, project, tags are C strings; priority is a single char. -/
structure Task where
  description : List Char
  project : List Char
  tags : List Char
  priority : Char
deriving DecidableEq, Repr

/-- The `color_rule` node of color.c: a pair number, an optional predicate
string (NULL becomes `none`) and an object class.  The `next` pointer becomes
the list structure. -/
structure ColorRule where
  pair : Int
  rule : Option (List Char)
  object : ColorObject
deriving DecidableEq, Repr

/-- The process-wide pair state: `used` is the `pairs_used` table allocated in
init_colors with `COLOR_PAIRS` entries, and `content` is the curses pair table
queried by `pair_content` and written by `init_pair`, also `COLOR_PAIRS`
entries.  `used.length` plays the role of `COLOR_PAIRS`. -/
structure Pool where
  used : List Bool
  content : List (Int × Int)
deriving DecidableEq, Repr

/-- Terminal capabilities consumed by init_colors: whether `start_color`,
`use_default_colors` succeed, whether `has_colors` reports color support, and
the terminal's `COLOR_PAIRS`. -/
structure Terminal where
  start_color_ok : Bool
  use_default_colors_ok : Bool
  has_colors : Bool
  color_pairs : Nat
deriving DecidableEq, Repr

/-- The single-quote character, written by code point to keep source plain. -/
def quoteChar : Char := Char.ofNat 39

/-- C `isspace` in the default locale: space, \t, \n, \v, \f, \r.  A space in a
scanf format string skips a (possibly empty) run of these. -/
def is_c_space (c : Char) : Bool :=
  c == ' ' || c == '\t' || c == '\n' || c == Char.ofNat 11 || c == Char.ofNat 12 || c == '\r'

/-- C `isdigit`. -/
def is_digit (c : Char) : Bool := decide (48 ≤ c.toNat ∧ c.toNat ≤ 57)

/-- Numeric value of a decimal digit character. -/
def digit_val (c : Char) : Nat := c.toNat - 48

/-- Value of a run of decimal digits, most significant first, as scanf's %d
accumulates it.  (C's %d overflows as UB on huge runs; the claims only concern
in-range values, so the model uses unbounded integers.) -/
def digits_to_nat (ds : List Char) : Nat := List.foldl (fun a c => 10 * a + digit_val c) 0 ds

/-- Does `v` start with `p`?  (Prefix test used to model substring search.) -/
def starts_with : List Char → List Char → Bool
  | _, [] => true
  | [], _ :: _ => false
  | v :: vs, p :: ps => v == p && starts_with vs ps

/-- Modelled from the spec: `match_string` (common.c, absent from src/) wraps
the pattern/regex primitive of spec section 6, "value x pattern ->
match/no-match".  Spec section 8 pins substring semantics for literal
patterns ("~p 'task'" matches project "task-research"), so a literal pattern is
modelled as substring containment of the pattern in the value. -/
def match_string : List Char → List Char → Bool
  | value, pattern =>
    starts_with value pattern ||
      (match value with
       | [] => false
       | _ :: vs => match_string vs pattern)

/-- ncurses `COLOR_PAIR(n) = ((n) << 8) & A_COLOR`, i.e. the low 8 bits of the
pair number shifted into the color-attribute byte. -/
def COLOR_PAIR (p : Int) : Int := p % 256 * 256

/-- curses color constants used by set_default_colors. -/
def COLOR_BLACK : Int := 0

def COLOR_RED : Int := 1

def COLOR_GREEN : Int := 2

def COLOR_YELLOW : Int := 3

def COLOR_BLUE : Int := 4

def COLOR_MAGENTA : Int := 5

def COLOR_CYAN : Int := 6

def COLOR_WHITE : Int := 7

/-- The free-slot search loop of add_color_pair (color.c:57-58):
 `while (pairs_used[pair] && pair<COLOR_PAIRS) pair++;`.
The walk starts at `pair` over the remaining entries of the table; the returned
Nat is the final value of `pair`.  The C condition reads `pairs_used[pair]`
BEFORE testing `pair<COLOR_PAIRS`, so when the walk runs off the end of the
table (every remaining entry true) the final condition evaluation reads
`pairs_used[COLOR_PAIRS]`, one entry past the allocation; the Bool result is
`true` exactly when that out-of-bounds read happens.  Whatever garbage that
read yields, the loop then stops with `pair == COLOR_PAIRS` (either the read
is false, or the bound test fails), which is what this model returns. -/
def scan_loop : List Bool → Nat → Nat × Bool
  | [], pair => (pair, true)
  | b :: rest, pair => if b then scan_loop rest (pair + 1) else (pair, false)

/-- add_color_pair (color.c:49-79).  `askpair <= 0` requests an automatic
slot; otherwise the requested slot is used if free.  `init_pair(pair,fg,bg)`
returns ERR for pair numbers outside [1, COLOR_PAIRS), modelled by the range
test; on success it records (fg,bg) in the curses pair table.  Returns the
pair number, or -1, together with the updated pool. -/
def add_color_pair (st : Pool) (askpair fg bg : Int) : Int × Pool :=
  if askpair ≤ 0 then
    let p := (scan_loop st.used 0).1
    if p = st.used.length then (-1, st)
    else if 1 ≤ p ∧ p < st.used.length then
      ((p : Int), ⟨st.used.set p true, st.content.set p (fg, bg)⟩)
    else (-1, st)
  else
    if st.used.getD askpair.toNat false then (-1, st)
    else if 1 ≤ askpair.toNat ∧ askpair.toNat < st.used.length then
      (askpair, ⟨st.used.set askpair.toNat true, st.content.set askpair.toNat (fg, bg)⟩)
    else (-1, st)

/-- The scan loop of find_add_pair (color.c:204-216): walks pairs ascending,
looking for a used pair whose content is (fg,bg) and remembering the first
free pair seen.  `us`/`cs` are the suffixes of the used/content tables from
index `pair` on, walked in lockstep (`pair_content` never fails for a pair
number inside the table, so the ERR-continue branch of the C loop is dead).
Returns (matching pair number if any, first free pair number if any). -/
def find_scan : List Bool → List (Int × Int) → Int → Int → Nat → Option Nat → Option Nat × Option Nat
  | [], _, _, _, _, free => (none, free)
  | _ :: _, [], _, _, _, free => (none, free)
  | b :: us, c :: cs, fg, bg, pair, free =>
    if b then
      (if c = (fg, bg) then (some pair, free)
       else find_scan us cs fg bg (pair + 1) free)
    else find_scan us cs fg bg (pair + 1) (if free.isSome then free else some pair)

/-- find_add_pair (color.c:197-220): find a pair with the given content or
create one, allocating the first free slot found during the scan (or asking
add_color_pair for an automatic slot, passing free_pair = -1, if none). -/
def find_add_pair (st : Pool) (fg bg : Int) : Int × Pool :=
  let r := find_scan (st.used.drop 1) (st.content.drop 1) fg bg 1 none
  match r.1 with
  | some p => ((p : Int), st)
  | none =>
    add_color_pair st (match r.2 with | some f => (f : Int) | none => -1) fg bg

/-- `sscanf(rule, "~%c '%m[^\']'", &pattern, &regex)` of color.c:149, returning
(pattern, regex) when the conversion count is 2.  The literal `~` must match;
`%c` consumes the very next character; the format-string space skips any run of
whitespace; the literal `'` must match; `%m[^']` requires a nonempty run of
non-quote characters.  The trailing `'` in the format cannot lower the return
value below 2, so an unclosed quote still yields a successful parse. -/
def sscanf_clause (s : List Char) : Option (Char × List Char) :=
  match s with
  | '~' :: c :: rest =>
    let r1 := rest.dropWhile is_c_space
    if r1.head? = some quoteChar then
      let regex := r1.tail.takeWhile (fun ch => ch != quoteChar)
      if regex = [] then none else some (c, regex)
    else none
  | _ => none

/-- eval_rules (color.c:124-195) on a non-NULL rule string.  Empty string
succeeds; a non-`~` character is skipped; `~S` tests the selection flag and
continues 2 characters later (str_starts_with of common.c, modelled from the
spec as a prefix test); otherwise the sscanf clause parse is tried, the
selected task field is matched against the regex, and on success evaluation
continues at `rule + strlen(regex) + 3` (the `move` of color.c:153); any
failure — parse failure, unknown pattern letter, failed field match — returns
false.  The priority field is matched as the one-character string built by
color.c:176-177. -/
def eval_chars : List Char → Task → Bool → Bool
  | [], _, _ => true
  | c :: rest, tsk, selected =>
    if c = '~' then
      if rest.head? = some 'S' then
        (if selected then eval_chars rest.tail tsk selected else false)
      else
        match sscanf_clause (c :: rest) with
        | some (pattern, regex) =>
          if pattern = 'p' then
            (if match_string tsk.project regex then
              eval_chars ((c :: rest).drop (regex.length + 3)) tsk selected
             else false)
          else if pattern = 'd' then
            (if match_string tsk.description regex then
              eval_chars ((c :: rest).drop (regex.length + 3)) tsk selected
             else false)
          else if pattern = 't' then
            (if match_string tsk.tags regex then
              eval_chars ((c :: rest).drop (regex.length + 3)) tsk selected
             else false)
          else if pattern = 'r' then
            (if match_string [tsk.priority] regex then
              eval_chars ((c :: rest).drop (regex.length + 3)) tsk selected
             else false)
          else false
        | none => false
    else eval_chars rest tsk selected
termination_by s _ _ => s.length
decreasing_by
  all_goals simp [List.length_drop, List.length_tail]
  all_goals omega

/-- eval_rules including the NULL case (color.c:132: NULL or empty succeeds). -/
def eval_rules (rule : Option (List Char)) (tsk : Task) (selected : Bool) : Bool :=
  match rule with
  | none => true
  | some s => eval_chars s tsk selected

/-- add_color_rule (color.c:81-122): walk the rule list for a rule with the
same object and the same predicate (NULL/NULL equal by pointer equality,
non-NULL by strcmp; `Option` equality models both), overwrite its pair on a
successful find_add_pair; otherwise append a new rule at the tail.  A negative
find_add_pair result is returned at once, leaving the rules untouched.
Returns (return value, updated rule list, updated pool). -/
def add_color_rule (st : Pool) (rules : List ColorRule) (object : ColorObject)
    (rule : Option (List Char)) (fg bg : Int) : Int × List ColorRule × Pool :=
  match rules with
  | [] =>
    let r := find_add_pair st fg bg
    if r.1 < 0 then (r.1, [], r.2)
    else (0, [⟨r.1, rule, object⟩], r.2)
  | r :: rest =>
    if r.object = object ∧ r.rule = rule then
      let fa := find_add_pair st fg bg
      if fa.1 < 0 then (fa.1, r :: rest, fa.2)
      else (0, ⟨fa.1, r.rule, r.object⟩ :: rest, fa.2)
    else
      let rec_ := add_color_rule st rest object rule fg bg
      (rec_.1, r :: rec_.2.1, rec_.2.2)

/-- The walk of get_colors (color.c:239-276), carrying the running `pair`
(initially 0): a HEADER/ERROR rule of the resolved class ends the walk with
its pair; a TASK rule of the resolved class updates the running pair when its
predicate evaluates true; everything else leaves the pair unchanged. -/
def get_colors_loop : List ColorRule → ColorObject → Task → Bool → Int → Int
  | [], _, _, _, pair => pair
  | r :: rest, object, tsk, selected, pair =>
    if object = r.object then
      match object with
      | OBJECT_ERROR => r.pair
      | OBJECT_HEADER => r.pair
      | OBJECT_TASK =>
        get_colors_loop rest object tsk selected
          (if eval_rules r.rule tsk selected then r.pair else pair)
      | OBJECT_NONE => get_colors_loop rest object tsk selected pair
    else get_colors_loop rest object tsk selected pair

/-- get_colors (color.c:239-276): run the walk from pair 0 and return
`COLOR_PAIR(pair)`. -/
def get_colors (rules : List ColorRule) (object : ColorObject) (tsk : Task)
    (selected : Bool) : Int :=
  COLOR_PAIR (get_colors_loop rules object tsk selected 0)

/-- The default rules installed by set_default_colors (color.c:381-393), in
installation order.  Predicate strings are spelled as char lists
(quoteChar is the single quote). -/
def default_rule_specs : List (ColorObject × Option (List Char) × Int × Int) :=
  [(OBJECT_HEADER, none, COLOR_BLUE, COLOR_BLACK),
   (OBJECT_TASK, none, -1, -1),
   (OBJECT_TASK, some ['~', 'r', ' ', quoteChar, '[', 'M', 'm', ']', quoteChar], COLOR_YELLOW, -1),
   (OBJECT_TASK, some ['~', 'd', ' ', quoteChar, '\\', '?', quoteChar], COLOR_GREEN, -1),
   (OBJECT_TASK, some ['~', 'p', ' ', quoteChar, 't', 'a', 's', 'k', '*', quoteChar], COLOR_RED, -1),
   (OBJECT_TASK, some ['~', 'S'], COLOR_CYAN, COLOR_BLACK),
   (OBJECT_ERROR, none, COLOR_RED, -1)]

/-- set_default_colors (color.c:381-393): issue the seven default
add_color_rule calls in order, ignoring their return values as the C does,
and return 0. -/
def set_default_colors (st : Pool) (rules : List ColorRule) : Pool × List ColorRule :=
  List.foldl
    (fun acc spec =>
      let r := add_color_rule acc.1 acc.2 spec.1 spec.2.1 spec.2.2.1 spec.2.2.2
      (r.2.2, r.2.1))
    (st, rules) default_rule_specs

/-- init_colors (color.c:278-307): 1 if start_color fails, 2 if
use_default_colors fails; if the terminal has colors, allocate the
`pairs_used` table (all false), pre-mark pair 0 used, install the default
rules and return 0; otherwise return 3 with no table and no rules.  The
initial rule list is the initial NULL `color_rules` global, i.e. `[]`. -/
def init_colors (t : Terminal) : Int × Option Pool × List ColorRule :=
  if t.start_color_ok = false then (1, none, [])
  else if t.use_default_colors_ok = false then (2, none, [])
  else if t.has_colors then
    let pool : Pool := ⟨(List.replicate t.color_pairs false).set 0 true,
                        List.replicate t.color_pairs (0, 0)⟩
    let r := set_default_colors pool []
    (0, some r.1, r.2)
  else (3, none, [])

/-- `sscanf(name, "%d", &i)` of color.c:334: skip whitespace, accept an
optional sign, require at least one digit, consume the maximal digit run.
(Overflow of C's %d is undefined behaviour and outside the model.) -/
def scan_int (s : List Char) : Option Int :=
  let s1 := s.dropWhile is_c_space
  if s1.head? = some '-' then
    let ds := s1.tail.takeWhile is_digit
    if ds = [] then none else some (-(digits_to_nat ds : Int))
  else if s1.head? = some '+' then
    let ds := s1.tail.takeWhile is_digit
    if ds = [] then none else some ((digits_to_nat ds : Int))
  else
    let ds := s1.takeWhile is_digit
    if ds = [] then none else some ((digits_to_nat ds : Int))

/-- `sscanf(name, "color%3d", &i)` of color.c:339: the literal prefix "color",
then %3d — whitespace skip, then at most three characters of the numeric item
(sign included in the width). -/
def scan_color3 (s : List Char) : Option Int :=
  match s with
  | 'c' :: 'o' :: 'l' :: 'o' :: 'r' :: rest =>
    let s1 := rest.dropWhile is_c_space
    if s1.head? = some '-' then
      let ds := (s1.tail.takeWhile is_digit).take 2
      if ds = [] then none else some (-(digits_to_nat ds : Int))
    else if s1.head? = some '+' then
      let ds := (s1.tail.takeWhile is_digit).take 2
      if ds = [] then none else some ((digits_to_nat ds : Int))
    else
      let ds := (s1.takeWhile is_digit).take 3
      if ds = [] then none else some ((digits_to_nat ds : Int))
  | _ => none

/-- The named-color map of parse_color (color.c:321-331).  `str_eq` of
common.c is modelled from the spec's parseColorName contract as exact string
equality. -/
def color_names : List (Int × List Char) :=
  [(COLOR_BLACK, "black".toList), (COLOR_RED, "red".toList),
   (COLOR_GREEN, "green".toList), (COLOR_YELLOW, "yellow".toList),
   (COLOR_BLUE, "blue".toList), (COLOR_MAGENTA, "magenta".toList),
   (COLOR_CYAN, "cyan".toList), (COLOR_WHITE, "white".toList)]

/-- parse_color (color.c:309-351): try a plain integer, then colorNNN, then
the named map, else -2. -/
def parse_color (name : List Char) : Int :=
  match scan_int name with
  | some i => i
  | none =>
    match scan_color3 name with
    | some i => i
    | none =>
      match color_names.find? (fun p => p.2 == name) with
      | some p => p.1
      | none => -2

/-- parse_object (color.c:353-379). -/
def parse_object (name : List Char) : ColorObject :=
  if name = "header".toList then OBJECT_HEADER
  else if name = "task".toList then OBJECT_TASK
  else if name = "error".toList then OBJECT_ERROR
  else OBJECT_NONE

/-- The field selected by a pattern letter in the switch of color.c:155-186:
p is project, d is description, t is tags, r is the one-character priority
string; anything else is the default branch (`none`). -/
def rule_field (tsk : Task) (ltr : Char) : Option (List Char) :=
  if ltr = 'p' then some tsk.project
  else if ltr = 'd' then some tsk.description
  else if ltr = 't' then some tsk.tags
  else if ltr = 'r' then some [tsk.priority]
  else none

/-- The pair of the last TASK rule whose predicate matches, 0 when none does:
the cascading-override semantics of the get_colors walk for OBJECT_TASK,
expressed as a fold over the rule list. -/
def last_task_pair (rules : List ColorRule) (tsk : Task) (selected : Bool) : Int :=
  List.foldl
    (fun acc r =>
      if r.object = OBJECT_TASK ∧ eval_rules r.rule tsk selected = true then r.pair else acc)
    0 rules

/-- A rule matches a get_colors query when its class is the queried class and,
for TASK queries, its predicate evaluates true (HEADER/ERROR rules match by
class alone; OBJECT_NONE rules never set the pair). -/
def rule_matches (r : ColorRule) (object : ColorObject) (tsk : Task) (selected : Bool) : Bool :=
  r.object == object &&
    (object == OBJECT_HEADER || object == OBJECT_ERROR ||
      (object == OBJECT_TASK && eval_rules r.rule tsk selected))

/-- A concrete task record used by witnesses. -/
def tskW : Task := ⟨[], [], [], 'A'⟩

/-! ### List index helpers -/

theorem getD_drop_add {α : Type} (l : List α) (d : α) :
    ∀ (n j : Nat), (l.drop n).getD j d = l.getD (n + j) d := by
  induction l with
  | nil => intro n j; simp [List.drop_nil]
  | cons a l ih =>
    intro n j
    cases n with
    | zero => simp
    | succ n =>
      simp only [List.drop_succ_cons]
      rw [ih n j]
      simp [Nat.succ_add]

theorem getD_set_self {α : Type} (l : List α) (a d : α) :
    ∀ (j : Nat), j < l.length → (l.set j a).getD j d = a := by
  induction l with
  | nil => intro j h; simp at h
  | cons b l ih =>
    intro j h
    cases j with
    | zero => simp
    | succ j =>
      simp only [List.set_cons_succ, List.getD_cons_succ]
      exact ih j (by simpa using h)

theorem getD_set_ne {α : Type} (l : List α) (a d : α) :
    ∀ (i j : Nat), i ≠ j → (l.set i a).getD j d = l.getD j d := by
  induction l with
  | nil => intro i j _; simp
  | cons b l ih =>
    intro i j hne
    cases i with
    | zero =>
      cases j with
      | zero => exact absurd rfl hne
      | succ j => simp
    | succ i =>
      cases j with
      | zero => simp
      | succ j =>
        simp only [List.set_cons_succ, List.getD_cons_succ]
        exact ih i j (by omega)

/-! ### Pool scan lemmas -/

/-- A free-slot candidate already recorded is never replaced. -/
theorem find_scan_free_sticky :
    ∀ (us : List Bool) (cs : List (Int × Int)) (fg bg : Int) (i : Nat) (x : Nat),
      (find_scan us cs fg bg i (some x)).2 = some x := by
  intro us
  induction us with
  | nil => intro cs fg bg i x; simp [find_scan]
  | cons b us ih =>
    intro cs fg bg i x
    cases cs with
    | nil => simp [find_scan]
    | cons c cs =>
      by_cases hb : b
      · by_cases hc : c = (fg, bg) <;> simp [find_scan, hb, hc, ih]
      · simp [find_scan, hb, ih]

/-- If the scan found no content match, no used slot in its range holds
(fg,bg). -/
theorem find_scan_none_nomatch :
    ∀ (us : List Bool) (cs : List (Int × Int)) (fg bg : Int) (i : Nat) (free : Option Nat),
      us.length = cs.length →
      (find_scan us cs fg bg i free).1 = none →
      ∀ j, j < us.length → us.getD j false = true → cs.getD j (0, 0) ≠ (fg, bg) := by
  intro us
  induction us with
  | nil => intro cs fg bg i free _ _ j hj; simp at hj
  | cons b us ih =>
    intro cs fg bg i free hlen hnone j hj hused
    cases cs with
    | nil => simp at hlen
    | cons c cs =>
      have hlen' : us.length = cs.length := by simpa using hlen
      by_cases hb : b
      · by_cases hc : c = (fg, bg)
        · simp [find_scan, hb, hc] at hnone
        · cases j with
          | zero => simpa using hc
          | succ j =>
            have hnone' : (find_scan us cs fg bg (i + 1) free).1 = none := by
              simpa [find_scan, hb, hc] using hnone
            exact ih cs fg bg (i + 1) free hlen' hnone' j (by simpa using hj)
              (by simpa using hused)
      · cases j with
        | zero => simp [hb] at hused
        | succ j =>
          have hnone' :
              (find_scan us cs fg bg (i + 1)
                (if (free.isSome) then free else some i)).1 = none := by
            simpa [find_scan, hb] using hnone
          exact ih cs fg bg (i + 1) _ hlen' hnone' j (by simpa using hj)
            (by simpa using hused)

/-- If the scan found no match but recorded a free slot, that slot is the
first unused index of its range. -/
theorem find_scan_none_first_free :
    ∀ (us : List Bool) (cs : List (Int × Int)) (fg bg : Int) (i : Nat) (f : Nat),
      us.length = cs.length →
      (find_scan us cs fg bg i none).1 = none →
      (find_scan us cs fg bg i none).2 = some f →
      ∃ k, f = i + k ∧ k < us.length ∧ us.getD k false = false ∧
        ∀ j, j < k → us.getD j false = true := by
  intro us
  induction us with
  | nil => intro cs fg bg i f _ _ h2; simp [find_scan] at h2
  | cons b us ih =>
    intro cs fg bg i f hlen h1 h2
    cases cs with
    | nil => simp at hlen
    | cons c cs =>
      have hlen' : us.length = cs.length := by simpa using hlen
      by_cases hb : b
      · by_cases hc : c = (fg, bg)
        · simp [find_scan, hb, hc] at h1
        · have h1' : (find_scan us cs fg bg (i + 1) none).1 = none := by
            simpa [find_scan, hb, hc] using h1
          have h2' : (find_scan us cs fg bg (i + 1) none).2 = some f := by
            simpa [find_scan, hb, hc] using h2
          obtain ⟨k, hk1, hk2, hk3, hk4⟩ := ih cs fg bg (i + 1) f hlen' h1' h2'
          refine ⟨k + 1, by omega, by simpa using Nat.succ_lt_succ hk2, by simpa using hk3, ?_⟩
          intro j hj
          cases j with
          | zero => simpa using hb
          | succ j => simpa using hk4 j (by omega)
      · have h2' : (find_scan us cs fg bg (i + 1) (some i)).2 = some f := by
          simpa [find_scan, hb] using h2
        have hf : f = i := by
          have := find_scan_free_sticky us cs fg bg (i + 1) i
          rw [this] at h2'
          exact (Option.some.injEq _ _ ▸ h2').symm
        refine ⟨0, by omega, by simp, by simpa using hb, by intro j hj; omega⟩

/-- If index `k` of the range is used with content (fg,bg) and no earlier used
index matches, the scan finds `i + k`. -/
theorem find_scan_found :
    ∀ (us : List Bool) (cs : List (Int × Int)) (fg bg : Int) (i : Nat)
      (free : Option Nat) (k : Nat),
      us.length = cs.length →
      k < us.length →
      us.getD k false = true →
      cs.getD k (0, 0) = (fg, bg) →
      (∀ j, j < k → us.getD j false = true → cs.getD j (0, 0) ≠ (fg, bg)) →
      (find_scan us cs fg bg i free).1 = some (i + k) := by
  intro us
  induction us with
  | nil => intro cs fg bg i free k _ hk; simp at hk
  | cons b us ih =>
    intro cs fg bg i free k hlen hk hused hcont hprev
    cases cs with
    | nil => simp at hlen
    | cons c cs =>
      have hlen' : us.length = cs.length := by simpa using hlen
      cases k with
      | zero =>
        have hb : b = true := by simpa using hused
        have hc : c = (fg, bg) := by simpa using hcont
        simp [find_scan, hb, hc]
      | succ k =>
        by_cases hb : b
        · have hc : c ≠ (fg, bg) := by
            have := hprev 0 (by omega) (by simpa using hb)
            simpa using this
          have := ih cs fg bg (i + 1) free k hlen' (by simpa using hk)
            (by simpa using hused) (by simpa using hcont)
            (fun j hj hu => by
              have := hprev (j + 1) (by omega) (by simpa using hu)
              simpa using this)
          simpa [find_scan, hb, hc, Nat.add_assoc, Nat.add_comm 1 k] using this
        · have := ih cs fg bg (i + 1) (if free.isSome then free else some i) k
            hlen' (by simpa using hk) (by simpa using hused) (by simpa using hcont)
            (fun j hj hu => by
              have := hprev (j + 1) (by omega) (by simpa using hu)
              simpa using this)
          simpa [find_scan, hb, Nat.add_assoc, Nat.add_comm 1 k] using this

/-- A scan that reports neither a match nor a free slot saw only used
slots. -/
theorem find_scan_none_none :
    ∀ (us : List Bool) (cs : List (Int × Int)) (fg bg : Int) (i : Nat),
      us.length = cs.length →
      (find_scan us cs fg bg i none).1 = none →
      (find_scan us cs fg bg i none).2 = none →
      ∀ j, j < us.length → us.getD j false = true := by
  intro us
  induction us with
  | nil => intro cs fg bg i _ _ _ j hj; simp at hj
  | cons b us ih =>
    intro cs fg bg i hlen h1 h2 j hj
    cases cs with
    | nil => simp at hlen
    | cons c cs =>
      have hlen' : us.length = cs.length := by simpa using hlen
      by_cases hb : b
      · by_cases hc : c = (fg, bg)
        · simp [find_scan, hb, hc] at h1
        · cases j with
          | zero => simpa using hb
          | succ j =>
            have h1' : (find_scan us cs fg bg (i + 1) none).1 = none := by
              simpa [find_scan, hb, hc] using h1
            have h2' : (find_scan us cs fg bg (i + 1) none).2 = none := by
              simpa [find_scan, hb, hc] using h2
            simpa using ih cs fg bg (i + 1) hlen' h1' h2' j (by simpa using hj)
      · exfalso
        have h2' : (find_scan us cs fg bg (i + 1) (some i)).2 = none := by
          simpa [find_scan, hb] using h2
        rw [find_scan_free_sticky us cs fg bg (i + 1) i] at h2'
        exact Option.some_ne_none i h2'

/-- When every slot of the range is used and none matches, the scan returns
(none, none). -/
theorem find_scan_all_used :
    ∀ (us : List Bool) (cs : List (Int × Int)) (fg bg : Int) (i : Nat),
      us.length = cs.length →
      (∀ j, j < us.length → us.getD j false = true) →
      (∀ j, j < us.length → cs.getD j (0, 0) ≠ (fg, bg)) →
      find_scan us cs fg bg i none = (none, none) := by
  intro us
  induction us with
  | nil => intro cs fg bg i _ _ _; simp [find_scan]
  | cons b us ih =>
    intro cs fg bg i hlen hall hnom
    cases cs with
    | nil => simp at hlen
    | cons c cs =>
      have hlen' : us.length = cs.length := by simpa using hlen
      have hb : b = true := by simpa using hall 0 (by simp)
      have hc : c ≠ (fg, bg) := by simpa using hnom 0 (by simp)
      have := ih cs fg bg (i + 1) hlen'
        (fun j hj => by simpa using hall (j + 1) (by simp; omega))
        (fun j hj => by simpa using hnom (j + 1) (by simp [← hlen']; omega))
      simpa [find_scan, hb, hc] using this

/-- An all-true usage table makes the add_color_pair loop walk to the end. -/
theorem scan_loop_all_true :
    ∀ (l : List Bool) (i : Nat), (∀ j, j < l.length → l.getD j false = true) →
      scan_loop l i = (i + l.length, true) := by
  intro l
  induction l with
  | nil => intro i _; simp [scan_loop]
  | cons b l ih =>
    intro i hall
    have hb : b = true := by simpa using hall 0 (by simp)
    have := ih (i + 1) (fun j hj => by simpa using hall (j + 1) (by simp; omega))
    simp [scan_loop, hb, this]
    omega

/-- A failing find_add_pair propagates out of add_color_rule untouched. -/
theorem add_color_rule_fail (st : Pool) (fg bg : Int)
    (h : find_add_pair st fg bg = (-1, st)) :
    ∀ (rules : List ColorRule) (object : ColorObject) (rule : Option (List Char)),
      add_color_rule st rules object rule fg bg = (-1, rules, st) := by
  intro rules
  induction rules with
  | nil => intro object rule; simp [add_color_rule, h]
  | cons r rest ih =>
    intro object rule
    by_cases hm : r.object = object ∧ r.rule = rule
    · simp [add_color_rule, hm, h]
    · simp [add_color_rule, hm, ih object rule]

/-! ### Resolver lemmas -/

/-- The get_colors walk for OBJECT_TASK is the cascading-override fold. -/
theorem get_colors_loop_task_eq_foldl (tsk : Task) (sel : Bool) :
    ∀ (rules : List ColorRule) (pair : Int),
      get_colors_loop rules OBJECT_TASK tsk sel pair =
        List.foldl
          (fun acc r =>
            if r.object = OBJECT_TASK ∧ eval_rules r.rule tsk sel = true then r.pair else acc)
          pair rules := by
  intro rules
  induction rules with
  | nil => intro pair; simp [get_colors_loop]
  | cons r rest ih =>
    intro pair
    by_cases h : OBJECT_TASK = r.object
    · simp only [get_colors_loop, if_pos h, List.foldl_cons]
      rw [ih]
      have hobj : r.object = OBJECT_TASK := h.symm
      by_cases he : eval_rules r.rule tsk sel = true
      · simp [he, hobj]
      · simp [he, hobj]
    · simp only [get_colors_loop, if_neg h, List.foldl_cons]
      rw [ih]
      have : ¬(r.object = OBJECT_TASK ∧ eval_rules r.rule tsk sel = true) := by
        intro hc; exact h hc.1.symm
      simp [this]

/-- A walk over rules none of which matches leaves the running pair alone. -/
theorem get_colors_loop_no_match (object : ColorObject) (tsk : Task) (sel : Bool) :
    ∀ (rules : List ColorRule) (pair : Int),
      (∀ r ∈ rules, rule_matches r object tsk sel = false) →
      get_colors_loop rules object tsk sel pair = pair := by
  intro rules
  induction rules with
  | nil => intro pair _; simp [get_colors_loop]
  | cons r rest ih =>
    intro pair hno
    have hr := hno r (by simp)
    have hrest : ∀ r' ∈ rest, rule_matches r' object tsk sel = false := by
      intro r' hm; exact hno r' (by simp [hm])
    by_cases h : object = r.object
    · cases object with
      | OBJECT_HEADER =>
        exfalso
        simp [rule_matches, h.symm] at hr
      | OBJECT_ERROR =>
        exfalso
        simp [rule_matches, h.symm] at hr
      | OBJECT_TASK =>
        have he : eval_rules r.rule tsk sel = false := by
          simp [rule_matches, h.symm] at hr
          exact hr
        simp only [get_colors_loop, if_pos h]
        rw [he]
        simp [ih pair hrest]
      | OBJECT_NONE =>
        simp only [get_colors_loop, if_pos h]
        exact ih pair hrest
    · simp only [get_colors_loop, if_neg h]
      exact ih pair hrest

/-! ### Claims C1, C2, C6, C9 -/

/-- Claim C1: for object class Task, get_colors evaluates the predicate of
every Task-class rule in rule-store order and returns the pair of the last
rule whose predicate matched (cascading override, as the `last_task_pair`
fold).  In particular for the store [Task/NULL->A, Task/"~S"->B], resolving a
selected task yields B and an unselected task yields A. -/
theorem claim_c1_task_cascade :
    ∀ (A B : Int) (tsk : Task) (rules : List ColorRule) (sel : Bool),
      get_colors rules OBJECT_TASK tsk sel = COLOR_PAIR (last_task_pair rules tsk sel) ∧
      get_colors [⟨A, none, OBJECT_TASK⟩, ⟨B, some ['~', 'S'], OBJECT_TASK⟩]
          OBJECT_TASK tsk true = COLOR_PAIR B ∧
      get_colors [⟨A, none, OBJECT_TASK⟩, ⟨B, some ['~', 'S'], OBJECT_TASK⟩]
          OBJECT_TASK tsk false = COLOR_PAIR A := by
  intro A B tsk rules sel
  refine ⟨?_, ?_, ?_⟩
  · simp [get_colors, last_task_pair, get_colors_loop_task_eq_foldl]
  · simp [get_colors, get_colors_loop, eval_rules, eval_chars]
  · simp [get_colors, get_colors_loop, eval_rules, eval_chars]

/-- Claim C2: for Header or Error, get_colors returns the pair of the first
rule of the matching class — for every task, selection flag and stored
predicate text (so that text is never evaluated). -/
theorem claim_c2_header_error_first :
    ∀ (pre post : List ColorRule) (r : ColorRule) (object : ColorObject)
      (tsk : Task) (sel : Bool),
      object = OBJECT_HEADER ∨ object = OBJECT_ERROR →
      (∀ r' ∈ pre, r'.object ≠ object) →
      r.object = object →
      get_colors (pre ++ r :: post) object tsk sel = COLOR_PAIR r.pair := by
  intro pre
  induction pre with
  | nil =>
    intro post r object tsk sel hobj _ hr
    rcases hobj with h | h <;>
      (subst h; simp [get_colors, get_colors_loop, hr.symm])
  | cons p pre ih =>
    intro post r object tsk sel hobj hpre hr
    have hp : p.object ≠ object := hpre p (by simp)
    have hpre' : ∀ r' ∈ pre, r'.object ≠ object := by
      intro r' hm; exact hpre r' (by simp [hm])
    have hno : object ≠ p.object := fun h => hp h.symm
    calc get_colors ((p :: pre) ++ r :: post) object tsk sel
        = get_colors (pre ++ r :: post) object tsk sel := by
          simp [get_colors, get_colors_loop, hno]
      _ = COLOR_PAIR r.pair := ih post r object tsk sel hobj hpre' hr

/-- Witness for C2 at a concrete store: a Task rule first, then two Header
rules; resolution returns the first Header rule's pair even though that rule
carries predicate text. -/
theorem witness_c2 :
    get_colors
      [⟨9, some ['~', 'S'], OBJECT_TASK⟩,
       ⟨5, some ['~', 'S'], OBJECT_HEADER⟩,
       ⟨6, none, OBJECT_HEADER⟩] OBJECT_HEADER tskW true = COLOR_PAIR 5 :=
  claim_c2_header_error_first
    [⟨9, some ['~', 'S'], OBJECT_TASK⟩] [⟨6, none, OBJECT_HEADER⟩]
    ⟨5, some ['~', 'S'], OBJECT_HEADER⟩ OBJECT_HEADER tskW true
    (Or.inl rfl) (by decide) rfl

/-- Claim C6: the `~S` clause matches exactly when the caller-supplied
selection flag is true, for every task record; it consumes 2 characters and
evaluation continues on the remainder. -/
theorem claim_c6_selected_clause :
    ∀ (tsk : Task) (sel : Bool) (rest : List Char),
      eval_chars ('~' :: 'S' :: rest) tsk sel
        = (if sel then eval_chars rest tsk sel else false) ∧
      eval_rules (some ['~', 'S']) tsk sel = sel := by
  intro tsk sel rest
  constructor
  · simp [eval_chars]
  · cases sel <;> simp [eval_rules, eval_chars]

/-- Claim C8: a terminal without color capability makes init_colors return 3
with no usage table and no rules installed; resolution over an empty rule
store — and in general whenever no rule matches — returns the default pair
id 0 (`COLOR_PAIR 0 = 0`). -/
theorem claim_c8_monochrome :
    ∀ (t : Terminal) (object : ColorObject) (tsk : Task) (sel : Bool),
      t.start_color_ok = true → t.use_default_colors_ok = true → t.has_colors = false →
      init_colors t = (3, none, []) ∧
      get_colors [] object tsk sel = 0 ∧
      (∀ rules : List ColorRule,
        (∀ r ∈ rules, rule_matches r object tsk sel = false) →
        get_colors rules object tsk sel = 0) := by
  intro t object tsk sel h1 h2 h3
  refine ⟨?_, ?_, ?_⟩
  · simp [init_colors, h1, h2, h3]
  · simp [get_colors, get_colors_loop, COLOR_PAIR]
  · intro rules hno
    simp [get_colors, get_colors_loop_no_match object tsk sel rules 0 hno, COLOR_PAIR]

/-- Witness for C8: a colorless terminal, and resolution over the empty store
and over a store whose single rule does not match. -/
theorem witness_c8 :
    init_colors ⟨true, true, false, 8⟩ = (3, none, []) ∧
    get_colors [] OBJECT_HEADER tskW true = 0 ∧
    get_colors [⟨5, none, OBJECT_TASK⟩] OBJECT_HEADER tskW true = 0 := by
  have h := claim_c8_monochrome ⟨true, true, false, 8⟩ OBJECT_HEADER tskW true rfl rfl rfl
  exact ⟨h.1, h.2.1, h.2.2 [⟨5, none, OBJECT_TASK⟩] (by decide)⟩

/-- Claim C9 (code bug): with every slot of a 4-entry pairs_used table marked
used, the automatic search of add_color_pair still detects exhaustion and
returns -1 with the pool untouched, but the final evaluation of the loop
condition `pairs_used[pair] && pair<COLOR_PAIRS` happens at pair =
COLOR_PAIRS, reading one entry past the table (the `true` flag of
scan_loop). -/
theorem claim_c9_oob_read :
    scan_loop [true, true, true, true] 0 = (4, true) ∧
    add_color_pair ⟨[true, true, true, true], [(0, 0), (0, 0), (0, 0), (0, 0)]⟩ (-1) 5 6
      = (-1, ⟨[true, true, true, true], [(0, 0), (0, 0), (0, 0), (0, 0)]⟩) := by
  decide

/-! ### Claims C4 and C7: rule-store mutation -/

/-- Claim C4: with every slot below the ceiling already used and (fg,bg) not
stored anywhere, find_add_pair returns the PoolExhausted value -1 and leaves
the pool — all earlier allocations — untouched, and an add_color_rule call
hitting this condition returns -1 leaving the rule store completely
unchanged. -/
theorem claim_c4_pool_exhausted :
    ∀ (st : Pool) (fg bg : Int) (rules : List ColorRule) (object : ColorObject)
      (rule : Option (List Char)),
      st.content.length = st.used.length →
      (∀ j, j < st.used.length → st.used.getD j false = true) →
      (∀ j, j < st.used.length → 1 ≤ j → st.content.getD j (0, 0) ≠ (fg, bg)) →
      find_add_pair st fg bg = (-1, st) ∧
      add_color_rule st rules object rule fg bg = (-1, rules, st) := by
  intro st fg bg rules object rule hlen hall hnom
  have hlen' : (st.used.drop 1).length = (st.content.drop 1).length := by
    simp [hlen]
  have hall' : ∀ j, j < (st.used.drop 1).length → (st.used.drop 1).getD j false = true := by
    intro j hj
    rw [getD_drop_add]
    exact hall (1 + j) (by simp at hj; omega)
  have hnom' : ∀ j, j < (st.used.drop 1).length →
      (st.content.drop 1).getD j (0, 0) ≠ (fg, bg) := by
    intro j hj
    rw [getD_drop_add]
    exact hnom (1 + j) (by simp at hj; omega) (by omega)
  have hscan := find_scan_all_used (st.used.drop 1) (st.content.drop 1) fg bg 1 hlen' hall' hnom'
  have hloop := scan_loop_all_true st.used 0 hall
  have hfap : find_add_pair st fg bg = (-1, st) := by
    simp only [find_add_pair, hscan]
    simp only [add_color_pair, hloop]
    norm_num
  exact ⟨hfap, add_color_rule_fail st fg bg hfap rules object rule⟩

/-- Witness for C4: a full 2-slot pool with contents distinct from (3,4). -/
theorem witness_c4 :
    find_add_pair ⟨[true, true], [(0, 0), (1, 2)]⟩ 3 4 = (-1, ⟨[true, true], [(0, 0), (1, 2)]⟩) ∧
    add_color_rule ⟨[true, true], [(0, 0), (1, 2)]⟩ [⟨5, none, OBJECT_HEADER⟩]
        OBJECT_HEADER none 3 4
      = (-1, [⟨5, none, OBJECT_HEADER⟩], ⟨[true, true], [(0, 0), (1, 2)]⟩) :=
  claim_c4_pool_exhausted ⟨[true, true], [(0, 0), (1, 2)]⟩ 3 4
    [⟨5, none, OBJECT_HEADER⟩] OBJECT_HEADER none (by decide)
    (by decide) (by decide)

/-- Claim C7: add_color_rule with an (objectClass, predicate) pair identical
to a stored rule (the first such rule) rewrites only that rule's pairId: the
store keeps its length and order, every other rule is untouched, and the found
rule keeps its predicate text and class.  (When find_add_pair fails the pair
too is left as it was.) -/
theorem claim_c7_replace_in_place :
    ∀ (st : Pool) (pre post : List ColorRule) (r : ColorRule) (object : ColorObject)
      (rule : Option (List Char)) (fg bg : Int),
      (∀ r' ∈ pre, ¬(r'.object = object ∧ r'.rule = rule)) →
      r.object = object → r.rule = rule →
      (add_color_rule st (pre ++ r :: post) object rule fg bg).2.1
        = pre ++ (⟨if (find_add_pair st fg bg).1 < 0 then r.pair else (find_add_pair st fg bg).1,
                   r.rule, r.object⟩ : ColorRule) :: post ∧
      ((add_color_rule st (pre ++ r :: post) object rule fg bg).2.1).length
        = (pre ++ r :: post).length := by
  intro st pre
  induction pre with
  | nil =>
    intro post r object rule fg bg _ hro hrr
    constructor
    · by_cases hc : (find_add_pair st fg bg).1 < 0
      · simp only [add_color_rule, hro, hrr, and_self, if_true, hc, List.nil_append]
        rw [← hro, ← hrr]
      · simp [add_color_rule, hro, hrr, hc]
    · by_cases hc : (find_add_pair st fg bg).1 < 0
      · simp [add_color_rule, hro, hrr, hc]
      · simp [add_color_rule, hro, hrr, hc]
  | cons p pre ih =>
    intro post r object rule fg bg hpre hro hrr
    have hp : ¬(p.object = object ∧ p.rule = rule) := hpre p (by simp)
    have hpre' : ∀ r' ∈ pre, ¬(r'.object = object ∧ r'.rule = rule) := by
      intro r' hm; exact hpre r' (by simp [hm])
    obtain ⟨ih1, ih2⟩ := ih post r object rule fg bg hpre' hro hrr
    constructor
    · simp [add_color_rule, hp, ih1]
    · simp [add_color_rule, hp, ih2]

/-- Witness for C7: replacing the pair of the second rule of a two-rule store;
find_add_pair succeeds with pair 1 on a pool with a free slot. -/
theorem witness_c7 :
    (add_color_rule ⟨[true, false], [(0, 0), (0, 0)]⟩
        [⟨9, none, OBJECT_HEADER⟩, ⟨7, some ['~', 'S'], OBJECT_TASK⟩]
        OBJECT_TASK (some ['~', 'S']) 3 4).2.1
      = [⟨9, none, OBJECT_HEADER⟩,
         ⟨if (find_add_pair ⟨[true, false], [(0, 0), (0, 0)]⟩ 3 4).1 < 0 then 7
           else (find_add_pair ⟨[true, false], [(0, 0), (0, 0)]⟩ 3 4).1,
          some ['~', 'S'], OBJECT_TASK⟩] ∧
    ((add_color_rule ⟨[true, false], [(0, 0), (0, 0)]⟩
        [⟨9, none, OBJECT_HEADER⟩, ⟨7, some ['~', 'S'], OBJECT_TASK⟩]
        OBJECT_TASK (some ['~', 'S']) 3 4).2.1).length
      = ([⟨9, none, OBJECT_HEADER⟩, ⟨7, some ['~', 'S'], OBJECT_TASK⟩] :
          List ColorRule).length :=
  claim_c7_replace_in_place ⟨[true, false], [(0, 0), (0, 0)]⟩
    [⟨9, none, OBJECT_HEADER⟩] [] ⟨7, some ['~', 'S'], OBJECT_TASK⟩
    OBJECT_TASK (some ['~', 'S']) 3 4 (by decide) rfl rfl

/-! ### Claim C3: find_add_pair idempotence -/

/-- Claim C3: whenever find_add_pair succeeds with some pair id P, calling it
again with the same (fg,bg) on the resulting pool returns the same P — the
dedup step, so one (fg,bg) content never occupies two slots.  The hypothesis
ties the two tables to the common COLOR_PAIRS length they always have in the
program. -/
theorem claim_c3_find_add_pair_idempotent :
    ∀ (st : Pool) (fg bg : Int),
      st.content.length = st.used.length →
      0 ≤ (find_add_pair st fg bg).1 →
      (find_add_pair ((find_add_pair st fg bg).2) fg bg).1 = (find_add_pair st fg bg).1 := by
  intro st fg bg hlen hok
  have hlen' : (st.used.drop 1).length = (st.content.drop 1).length := by
    simp [hlen]
  rcases h1 : (find_scan (st.used.drop 1) (st.content.drop 1) fg bg 1 none).1 with _ | p
  · -- no content match during the first scan
    rcases h2 : (find_scan (st.used.drop 1) (st.content.drop 1) fg bg 1 none).2 with _ | f
    · -- no free slot either: the automatic search fails, contradicting success
      exfalso
      have hall := find_scan_none_none (st.used.drop 1) (st.content.drop 1) fg bg 1 hlen' h1 h2
      have hres : find_add_pair st fg bg = (-1, st) := by
        simp only [find_add_pair, h1, h2]
        cases hu : st.used with
        | nil => simp [add_color_pair, scan_loop, hu]
        | cons b tail =>
          have htail : tail = st.used.drop 1 := by simp [hu]
          by_cases hb : b
          · have hloop : scan_loop st.used 0 = (0 + st.used.length, true) := by
              apply scan_loop_all_true
              intro j hj
              cases j with
              | zero => simp [hu, hb]
              | succ j =>
                rw [hu, List.getD_cons_succ, htail]
                apply hall j
                rw [← htail]
                rw [hu] at hj
                simp at hj
                omega

            simp only [add_color_pair, hloop]
            norm_num
          · have hloop : scan_loop st.used 0 = (0, false) := by
              simp [hu, scan_loop, hb]
            have hlen1 : st.used.length ≠ 0 := by simp [hu]
            simp only [add_color_pair, hloop]
            norm_num
      rw [hres] at hok
      norm_num at hok
    · -- a free slot f = 1 + k was recorded: the first call allocates it
      obtain ⟨k, hfk, hklen, hkfree, hkprev⟩ :=
        find_scan_none_first_free (st.used.drop 1) (st.content.drop 1) fg bg 1 f hlen' h1 h2
      have hulen : k + 1 < st.used.length := by
        simp at hklen; omega
      have hclen : k + 1 < st.content.length := by omega
      have hfused : st.used.getD (1 + k) false = false := by
        rw [← getD_drop_add]; exact hkfree
      have hadd : add_color_pair st ((f : Int)) fg bg
          = ((f : Int), ⟨st.used.set f true, st.content.set f (fg, bg)⟩) := by
        rw [hfk]
        simp only [add_color_pair]
        rw [if_neg (by omega)]
        have htn : ((1 + k : Nat) : Int).toNat = 1 + k := by omega
        rw [htn]
        rw [hfused]
        rw [if_neg (by simp)]
        rw [if_pos (by constructor <;> omega)]
      have hmain : find_add_pair st fg bg
          = ((f : Int), ⟨st.used.set f true, st.content.set f (fg, bg)⟩) := by
        simp only [find_add_pair, h1, h2]
        exact hadd
      rw [hmain]
      -- second call: slot f is now used with content (fg,bg), earlier used
      -- slots are unchanged and still fail to match
      have hnm := find_scan_none_nomatch (st.used.drop 1) (st.content.drop 1) fg bg 1 none hlen' h1
      have hkey : (find_scan ((st.used.set f true).drop 1) ((st.content.set f (fg, bg)).drop 1)
          fg bg 1 none).1 = some (1 + k) := by
        apply find_scan_found
        · simp [hlen]
        · simp [hfk] at hklen ⊢; omega
        · rw [getD_drop_add, hfk]
          exact getD_set_self st.used true false (1 + k) (by omega)
        · rw [getD_drop_add, hfk]
          exact getD_set_self st.content (fg, bg) (0, 0) (1 + k) (by omega)
        · intro j hj hu
          rw [getD_drop_add] at hu ⊢
          have hne : f ≠ 1 + j := by omega
          rw [getD_set_ne st.content (fg, bg) (0, 0) f (1 + j) hne]
          rw [getD_set_ne st.used true false f (1 + j) hne] at hu
          have hju : (st.used.drop 1).getD j false = true := by
            rw [getD_drop_add]; exact hu
          have := hnm j (by omega) hju
          rw [getD_drop_add] at this
          exact this
      rw [hfk] at hkey
      simp only [find_add_pair, hfk, hkey]
  · -- the first scan already found a matching used slot: nothing changes
    have hmain : find_add_pair st fg bg = ((p : Int), st) := by
      simp only [find_add_pair, h1]
    rw [hmain]
    simp only [find_add_pair, h1, hmain]

/-- Witness for C3: a pool with slot 1 free; the first call allocates pair 1
for (3,4) and the second call finds it again. -/
theorem witness_c3 :
    0 ≤ (find_add_pair ⟨[true, false], [(0, 0), (0, 0)]⟩ 3 4).1 ∧
    (find_add_pair ((find_add_pair ⟨[true, false], [(0, 0), (0, 0)]⟩ 3 4).2) 3 4).1
      = (find_add_pair ⟨[true, false], [(0, 0), (0, 0)]⟩ 3 4).1 :=
  ⟨by decide,
   claim_c3_find_add_pair_idempotent ⟨[true, false], [(0, 0), (0, 0)]⟩ 3 4
     (by decide) (by decide)⟩

/-! ### Claim C5: predicate evaluation, totality and short-circuit -/

theorem takeWhile_no_quote :
    ∀ (regex rest : List Char), quoteChar ∉ regex →
      (regex ++ quoteChar :: rest).takeWhile (fun ch => ch != quoteChar) = regex := by
  intro regex
  induction regex with
  | nil => intro rest _; simp [List.takeWhile_cons]
  | cons a rs ih =>
    intro rest hq
    have ha : a ≠ quoteChar := by intro h; exact hq (by simp [h])
    simp [List.takeWhile_cons, ha, ih rest (by intro h; exact hq (by simp [h]))]

/-- The sscanf clause parse succeeds on a well-formed single-space clause. -/
theorem sscanf_clause_wf (ltr : Char) (regex rest : List Char)
    (hne : regex ≠ []) (hq : quoteChar ∉ regex) :
    sscanf_clause ('~' :: ltr :: ' ' :: quoteChar :: (regex ++ quoteChar :: rest))
      = some (ltr, regex) := by
  have h1 : is_c_space ' ' = true := by decide
  have h2 : is_c_space quoteChar = false := by decide
  simp only [sscanf_clause, List.dropWhile_cons, h1, h2, if_true, Bool.false_eq_true,
    if_false, List.head?_cons, List.tail_cons]
  rw [takeWhile_no_quote regex rest hq]
  simp [hne]

/-- `rule + strlen(regex) + 3` lands two characters before the end of the
clause: on the last regex character, then the closing quote, then the
remainder. -/
theorem clause_drop (ltr a : Char) (rs rest : List Char) :
    List.drop ((rs ++ [a]).length + 3)
      ('~' :: ltr :: ' ' :: quoteChar :: ((rs ++ [a]) ++ quoteChar :: rest))
      = a :: quoteChar :: rest := by
  have h : ('~' :: ltr :: ' ' :: quoteChar :: ((rs ++ [a]) ++ quoteChar :: rest))
      = ('~' :: ltr :: ' ' :: quoteChar :: rs) ++ (a :: quoteChar :: rest) := by
    simp
  have hlen : (rs ++ [a]).length + 3 = ('~' :: ltr :: ' ' :: quoteChar :: rs).length := by
    simp
  rw [h, hlen, List.drop_left]

theorem rule_field_cases (tsk : Task) (ltr : Char) (v : List Char)
    (h : rule_field tsk ltr = some v) :
    (ltr = 'p' ∧ v = tsk.project) ∨ (ltr = 'd' ∧ v = tsk.description) ∨
      (ltr = 't' ∧ v = tsk.tags) ∨ (ltr = 'r' ∧ v = [tsk.priority]) := by
  unfold rule_field at h
  split_ifs at h with h1 h2 h3 h4
  · exact Or.inl ⟨h1, by injection h with h; exact h.symm⟩
  · exact Or.inr (Or.inl ⟨h2, by injection h with h; exact h.symm⟩)
  · exact Or.inr (Or.inr (Or.inl ⟨h3, by injection h with h; exact h.symm⟩))
  · exact Or.inr (Or.inr (Or.inr ⟨h4, by injection h with h; exact h.symm⟩))

/-- One step of eval_chars on a well-formed clause: select the field by the
pattern letter, fail the whole predicate if the letter is unknown or the field
match fails, otherwise continue `strlen(regex)+3` characters past the clause
start. -/
theorem eval_clause_step (ltr : Char) (regex rest : List Char) (tsk : Task) (sel : Bool)
    (hS : ltr ≠ 'S') (hne : regex ≠ []) (hq : quoteChar ∉ regex) :
    eval_chars ('~' :: ltr :: ' ' :: quoteChar :: (regex ++ quoteChar :: rest)) tsk sel
      = (match rule_field tsk ltr with
         | none => false
         | some v =>
           if match_string v regex then
             eval_chars (List.drop (regex.length + 3)
               ('~' :: ltr :: ' ' :: quoteChar :: (regex ++ quoteChar :: rest))) tsk sel
           else false) := by
  have hws := sscanf_clause_wf ltr regex rest hne hq
  rw [eval_chars]
  rw [if_pos rfl]
  rw [if_neg (by simp [hS])]
  rw [hws]
  by_cases hp : ltr = 'p'
  · subst hp; simp [rule_field]
  · by_cases hd : ltr = 'd'
    · subst hd; simp [rule_field]
    · by_cases ht : ltr = 't'
      · subst ht; simp [rule_field]
      · by_cases hr : ltr = 'r'
        · subst hr; simp [rule_field]
        · simp [rule_field, hp, hd, ht, hr]

/-- Counterexample to C5's bad-quoting part: the clause `~d 'x` has no
closing quote, yet sscanf still reports two conversions (the trailing quote of
the format cannot lower the count), the pattern becomes "x", and a task whose
description contains "x" makes the predicate evaluate to TRUE, not false. -/
theorem counterexample_c5_unclosed_quote :
    eval_rules (some ['~', 'd', ' ', quoteChar, 'x']) ⟨['x'], [], [], 'A'⟩ false = true := by
  simp [eval_rules, eval_chars, sscanf_clause, match_string, starts_with, quoteChar,
    is_c_space]

/-- Claim C5 as amended: evaluation is total and never raises; an unrecognized
field letter makes the whole predicate false (part 1); an unparsable clause —
e.g. missing opening quote or empty pattern — makes it false (part 4);
evaluation of well-formed clauses is conjunctive, left-to-right and
short-circuits on the first failing clause (part 2), and after a successful
clause whose pattern does not end in `~` it continues on the remainder
(part 3).  (A clause whose quoted pattern is unclosed at end of string is NOT
false: sscanf still parses it — see the counterexample — and a pattern ending
in `~` re-parses inside the clause because the code advances only
strlen(regex)+3 characters.) -/
theorem claim_c5_eval_total_conjunctive :
    (∀ (ltr : Char) (regex rest : List Char) (tsk : Task) (sel : Bool),
      rule_field tsk ltr = none → ltr ≠ 'S' → regex ≠ [] → quoteChar ∉ regex →
      eval_chars ('~' :: ltr :: ' ' :: quoteChar :: (regex ++ quoteChar :: rest)) tsk sel
        = false) ∧
    (∀ (ltr : Char) (v regex rest : List Char) (tsk : Task) (sel : Bool),
      rule_field tsk ltr = some v → match_string v regex = false →
      regex ≠ [] → quoteChar ∉ regex →
      eval_chars ('~' :: ltr :: ' ' :: quoteChar :: (regex ++ quoteChar :: rest)) tsk sel
        = false) ∧
    (∀ (ltr : Char) (v regex rest : List Char) (tsk : Task) (sel : Bool),
      rule_field tsk ltr = some v → match_string v regex = true →
      regex ≠ [] → quoteChar ∉ regex → regex.getLast? ≠ some '~' →
      eval_chars ('~' :: ltr :: ' ' :: quoteChar :: (regex ++ quoteChar :: rest)) tsk sel
        = eval_chars rest tsk sel) ∧
    (∀ (ltr : Char) (rest : List Char) (tsk : Task) (sel : Bool),
      ltr ≠ 'S' → sscanf_clause ('~' :: ltr :: rest) = none →
      eval_chars ('~' :: ltr :: rest) tsk sel = false) := by
  refine ⟨?_, ?_, ?_, ?_⟩
  · intro ltr regex rest tsk sel hf hS hne hq
    rw [eval_clause_step ltr regex rest tsk sel hS hne hq, hf]
  · intro ltr v regex rest tsk sel hf hm hne hq
    have hS : ltr ≠ 'S' := by
      rcases rule_field_cases tsk ltr v hf with ⟨rfl, _⟩ | ⟨rfl, _⟩ | ⟨rfl, _⟩ | ⟨rfl, _⟩ <;>
        decide
    rw [eval_clause_step ltr regex rest tsk sel hS hne hq, hf]
    simp [hm]
  · intro ltr v regex rest tsk sel hf hm hne hq hlast
    have hS : ltr ≠ 'S' := by
      rcases rule_field_cases tsk ltr v hf with ⟨rfl, _⟩ | ⟨rfl, _⟩ | ⟨rfl, _⟩ | ⟨rfl, _⟩ <;>
        decide
    rcases List.eq_nil_or_concat regex with rfl | ⟨rs, a, rfl⟩
    · exact absurd rfl hne
    simp only [List.concat_eq_append] at hm hne hq hlast ⊢
    have ha : a ≠ '~' := by
      intro h
      apply hlast
      rw [List.getLast?_concat, h]
    rw [eval_clause_step ltr (rs ++ [a]) rest tsk sel hS hne hq, hf]
    simp only [hm, if_true]
    rw [clause_drop ltr a rs rest]
    rw [eval_chars]
    rw [if_neg ha]
    rw [eval_chars]
    rw [if_neg (by decide)]
  · intro ltr rest tsk sel hS hnone
    rw [eval_chars]
    rw [if_pos rfl, if_neg (by simp [hS]), hnone]

/-- Witness for C5: an unknown letter `z`; a failing project clause; a
succeeding project clause continuing to the (empty) remainder; and an
unparsable clause `~q` with nothing after the letter. -/
theorem witness_c5 :
    eval_chars ('~' :: 'z' :: ' ' :: quoteChar :: (['x'] ++ quoteChar :: [])) tskW true
      = false ∧
    eval_chars ('~' :: 'p' :: ' ' :: quoteChar :: (['q'] ++ quoteChar :: []))
        ⟨[], ['a'], [], 'A'⟩ true = false ∧
    eval_chars ('~' :: 'p' :: ' ' :: quoteChar :: (['a'] ++ quoteChar :: []))
        ⟨[], ['a'], [], 'A'⟩ true = eval_chars [] ⟨[], ['a'], [], 'A'⟩ true ∧
    eval_chars ('~' :: 'q' :: []) tskW true = false :=
  ⟨claim_c5_eval_total_conjunctive.1 'z' ['x'] [] tskW true (by decide) (by decide)
      (by decide) (by decide),
   claim_c5_eval_total_conjunctive.2.1 'p' ['a'] ['q'] [] ⟨[], ['a'], [], 'A'⟩ true
      (by decide) (by decide) (by decide) (by decide),
   claim_c5_eval_total_conjunctive.2.2.1 'p' ['a'] ['a'] [] ⟨[], ['a'], [], 'A'⟩ true
      (by decide) (by decide) (by decide) (by decide) (by decide),
   claim_c5_eval_total_conjunctive.2.2.2 'q' [] tskW true (by decide) (by decide)⟩

/-! ### Claim C10: parse_color on numeric strings -/

theorem digit_not_space (c : Char) (h : is_digit c = true) : is_c_space c = false := by
  simp only [is_digit, decide_eq_true_eq] at h
  simp only [is_c_space, Bool.or_eq_false_iff, beq_eq_false_iff_ne, ne_eq]
  refine ⟨⟨⟨⟨⟨?_, ?_⟩, ?_⟩, ?_⟩, ?_⟩, ?_⟩ <;> (rintro rfl; exact absurd h (by decide))

theorem takeWhile_append_all (p : Char → Bool) :
    ∀ (ds rest : List Char), (∀ c ∈ ds, p c = true) →
      rest.head?.all (fun c => ! p c) = true →
      (ds ++ rest).takeWhile p = ds := by
  intro ds
  induction ds with
  | nil =>
    intro rest _ hrest
    cases rest with
    | nil => simp
    | cons r rs =>
      simp only [Option.all, List.head?_cons] at hrest
      have hpr : p r = false := by cases hv : p r <;> simp [hv] at hrest ⊢
      simp [List.takeWhile_cons, hpr]
  | cons d ds ih =>
    intro rest hall hrest
    have hd : p d = true := hall d (by simp)
    simp only [List.cons_append, List.takeWhile_cons, hd, if_true]
    rw [ih rest (fun c hc => hall c (by simp [hc])) hrest]

/-- Claim C10: a string beginning with a (maximal) run of decimal digits
parses to that run's value — never the Unrecognized sentinel -2 — even with
trailing junk; and the colorNNN form reads at most three digits, so
"color1234" yields 123 (and "12abc" yields 12). -/
theorem claim_c10_parse_color_numeric :
    (∀ (ds rest : List Char), ds ≠ [] → ds.all is_digit = true →
      rest.head?.all (fun c => ! is_digit c) = true →
      parse_color (ds ++ rest) = (digits_to_nat ds : Int) ∧
        parse_color (ds ++ rest) ≠ -2) ∧
    parse_color ('1' :: '2' :: 'a' :: 'b' :: 'c' :: []) = 12 ∧
    parse_color ('c' :: 'o' :: 'l' :: 'o' :: 'r' :: '1' :: '2' :: '3' :: '4' :: []) = 123 := by
  refine ⟨?_, by decide, by decide⟩
  intro ds rest hne hall hrest
  have hall' : ∀ c ∈ ds, is_digit c = true := by
    intro c hc; exact (List.all_eq_true.mp hall) c hc
  obtain ⟨d, ds', rfl⟩ : ∃ d ds', ds = d :: ds' := by
    cases ds with
    | nil => exact absurd rfl hne
    | cons d ds' => exact ⟨d, ds', rfl⟩
  have hd : is_digit d = true := hall' d (by simp)
  have hdm : d ≠ '-' := by rintro rfl; exact absurd hd (by decide)
  have hdp : d ≠ '+' := by rintro rfl; exact absurd hd (by decide)
  have hdrop : List.dropWhile is_c_space (d :: (ds' ++ rest)) = d :: (ds' ++ rest) := by
    simp [List.dropWhile_cons, digit_not_space d hd]
  have htake : List.takeWhile is_digit (d :: (ds' ++ rest)) = d :: ds' := by
    have := takeWhile_append_all is_digit (d :: ds') rest hall' hrest
    simpa using this
  have hscan : scan_int (d :: (ds' ++ rest)) = some ((digits_to_nat (d :: ds') : Int)) := by
    simp only [scan_int]
    rw [hdrop]
    simp [List.head?_cons, hdm, hdp, htake]
  constructor
  · simp [parse_color, hscan]
  · simp only [List.cons_append, parse_color, hscan]
    omega

/-- Witness for C10 at the one-digit string "7z". -/
theorem witness_c10 :
    parse_color (['7'] ++ ['z']) = (digits_to_nat ['7'] : Int) ∧
      parse_color (['7'] ++ ['z']) ≠ -2 :=
  claim_c10_parse_color_numeric.1 ['7'] ['z'] (by decide) (by decide) (by decide)

end Tasknc
